import Mathlib

/-!
Shallow embedding of `src/gpploggerCWT.py` (GPP-4323 resistance logger):
the append log (`raw.csv`), the rolling cache (deques with `maxlen`),
the sampler worker loop, the export pointer helpers, the exporter
(`csv_to_xlsx`) and the redraw window selection.

Python floats are modelled as `ℚ`; timestamps as rational seconds since
the epoch.  CSV text is modelled structurally: a cell is classified by
how Python's `float()` / `matplotlib.dates.datestr2num` would parse it.
-/

namespace CWT

/-- `MAX_POINTS` from the source: capacity of every cache deque. -/
def MAX_POINTS : Nat := 20000

/-- `WINDOW_H` from the source: hours of history shown. -/
def WINDOW_H : ℚ := 48

/-- Number of channels (`CHAN_LABELS = ["CH1","CH2","CH3","CH4"]`). -/
def CHAN_COUNT : Nat := 4

/-- The text of one CSV cell, classified by how it parses.
`timeStr s` is a `"%Y-%m-%d %H:%M:%S"` timestamp denoting `s` whole
seconds since the epoch; `numStr q` is a decimal numeral denoting `q`;
`infStr`/`nanStr` are the strings `float()` maps to `inf`/`nan`;
`rawStr` is any other non-empty text (header labels, garbage), which
`float()` and `datestr2num` both reject. -/
inductive CellStr
  | empty
  | timeStr (sec : Int)
  | numStr (q : ℚ)
  | infStr
  | nanStr
  | rawStr (tag : Nat)
deriving DecidableEq

/-- Result of a successful Python `float()` call. -/
inductive PFloat
  | fin (q : ℚ)
  | pinf
  | pnan
deriving DecidableEq

/-- `float(cell)`: `none` models a raised `ValueError`. -/
def parseFloat : CellStr → Option PFloat
  | .numStr q => some (.fin q)
  | .infStr => some .pinf
  | .nanStr => some .pnan
  | _ => none

/-- `math.isfinite` on a parsed float. -/
def isfinite : PFloat → Bool
  | .fin _ => true
  | _ => false

/-- `mdates.datestr2num(cell)`: succeeds only on a timestamp cell and
yields days since the epoch; `none` models a raised parse error. -/
def datestr2num : CellStr → Option ℚ
  | .timeStr s => some ((s : ℚ) / 86400)
  | _ => none

/-- `mdates.date2num(now)`: seconds-since-epoch to days-since-epoch. -/
def date2num (sec : ℚ) : ℚ := sec / 86400

/-- A cached reading, as stored in the per-channel deques: a finite
resistance, `np.nan` (absent/failed), or `np.inf` (open circuit). -/
inductive Val
  | num (q : ℚ)
  | nan
  | inf
deriving DecidableEq

/-- Conversion applied by the cache loader: `float(val)` result to the
stored deque value. -/
def floatToVal : PFloat → Val
  | .fin q => .num q
  | .pinf => .inf
  | .pnan => .nan

/-- One line of `raw.csv`: the `#xlsx:` metadata line (with an optional
export-artifact name, modelled as a `Nat`), or a CSV row. -/
inductive Line
  | meta (ptr : Option Nat)
  | row (cells : List CellStr)
deriving DecidableEq

/-- `line.startswith("#")`: only the metadata line starts with `#`. -/
def Line.isComment : Line → Bool
  | .meta _ => true
  | .row _ => false

/-- The header row written by `ensure_raw`:
`time,rel_h,CH1,CH2,CH3,CH4` (six non-numeric labels). -/
def headerRow : Line :=
  .row [.rawStr 0, .rawStr 1, .rawStr 2, .rawStr 3, .rawStr 4, .rawStr 5]

/-- The file `ensure_raw` creates: `#xlsx:` with empty path, then the
column header. -/
def initLog : List Line := [.meta none, headerRow]

/-- `current_xlsx()`: read the first line; return the path iff the line
starts with `#xlsx:` and carries a non-empty path. -/
def current_xlsx : List Line → Option Nat
  | .meta p :: _ => p
  | _ => none

/-- `set_xlsx(path)`: copy the log into a temp file with the first line
replaced by the new pointer line, then atomically replace `raw.csv`.
`none` models the `StopIteration` raised by `next(fin)` on an empty
file (the temp file never replaces the log in that case). -/
def set_xlsx (ls : List Line) (p : Nat) : Option (List Line) :=
  match ls with
  | [] => none
  | _ :: tl => some (.meta (some p) :: tl)

/-- The sequence of contents of `raw.csv` observable while `set_xlsx`
runs: the temp file is written aside, so the log shows its old contents
until the single atomic `tmp.replace(RAW_CSV)` installs the new ones. -/
def set_xlsx_rawStates (ls : List Line) (p : Nat) : List (List Line) :=
  match set_xlsx ls p with
  | none => [ls]
  | some res => [ls, res]

/-- Outcome of `psu.query(f":MEAS{ch}:ALL?")` followed by
`map(float, reply.split(","))` unpacking into `v, i, _`:
either the whole query/parse fails (any exception), or it yields a
voltage and a current (the third field is unused). -/
inductive MeasOutcome
  | fail
  | ok (v i : ℚ)

/-- `safe_R(psu, ch)`: `np.inf` if `abs(i) < 1e-6`, else `v/i`;
`np.nan` on any exception. -/
def safe_R : MeasOutcome → Val
  | .fail => .nan
  | .ok v i => if |i| < 1/1000000 then .inf else .num (v / i)

/-- `deque(maxlen=m).append`: append on the right, evicting the oldest
element on the left once `m` elements are held. -/
def dpush (m : Nat) (l : List α) (x : α) : List α :=
  if l.length < m then l ++ [x] else (l ++ [x]).tail

/-- `Mode`: `self.mode` is `None`, `"log"` or `"check"`. -/
inductive Mode
  | idle
  | logging
  | checking
deriving DecidableEq

/-- The app state touched by `clear_cache`: the session mode, the time
deque `self.t`, the per-channel deques `self.r`, and `raw.csv`. -/
structure AppState where
  mode : Mode
  t : List ℚ
  r : List (List Val)
  log : List Line
deriving DecidableEq

/-- `clear_cache()`: after the yes/no confirmation it unlinks `raw.csv`,
recreates it via `ensure_raw`, and clears every deque — the source
performs no check of `self.mode`. -/
def clear_cache (confirm : Bool) (st : AppState) : AppState :=
  if confirm then
    { st with log := initLog, t := [], r := st.r.map (fun _ => []) }
  else st

/-- The rolling cache: the time deque `self.t` and the four per-channel
deques `self.r`. -/
structure Cache where
  t : List ℚ
  r : List (List Val)
deriving DecidableEq

/-- The deques as `_load_cache` creates them before replay. -/
def initCache : Cache := ⟨[], [[], [], [], []]⟩

/-- `float(val) if val else np.nan` on one reading field; `none` models
a raised `ValueError` on unparseable non-empty text. -/
def parseField (c : CellStr) : Option Val :=
  if c = .empty then some .nan else (parseFloat c).map floatToVal

/-- `for i,val in enumerate(row[2:2+4]): r[i].append(...)`: push the
parsed values onto the leading deques, leaving deques beyond the (possibly
short) slice untouched. -/
def pushVals (r : List (List Val)) (vals : List Val) : List (List Val) :=
  match r, vals with
  | q :: r', v :: vs => dpush MAX_POINTS q v :: pushVals r' vs
  | r, [] => r
  | [], _ => []

/-- One iteration of the `_load_cache` replay loop on one CSV row:
parse `row[0]` as a timestamp (raises on failure, as does `row[0]` on an
empty row), then parse `row[2:2+len(CHAN_LABELS)]`. -/
def loadRow (c : Cache) (cells : List CellStr) : Option Cache := do
  let c0 ← cells.head?
  let tn ← datestr2num c0
  let vals ← ((cells.drop 2).take CHAN_COUNT).mapM parseField
  return ⟨dpush MAX_POINTS c.t tn, pushVals c.r vals⟩

/-- The CSV rows of the log, with `#`-prefixed lines filtered out
(`csv.reader(l for l in f if not l.startswith("#"))`). -/
def csvRows (ls : List Line) : List (List CellStr) :=
  ls.filterMap (fun l => match l with | .row cs => some cs | .meta _ => none)

/-- `_load_cache()`: skip the header (`next(rdr, None)`), then replay
every remaining row; `none` models a raised parse error. -/
def load_cache (ls : List Line) : Option Cache :=
  (csvRows ls).tail.foldlM loadRow initCache

/-- `f"{x:.4f}"` read back as a rational: rounding to four decimal
places.  (Python rounds the underlying binary float half-to-even; exact
decimal ties are not binary-representable, so the tie rule is free.) -/
def fmt4 (q : ℚ) : ℚ := (round (q * 10000) : ℚ) / 10000

/-- How the worker serialises one cached value into its CSV field:
`""` for `nan`, `f"{v:.4f}"` otherwise (which renders `inf` as `"inf"`). -/
def valCell : Val → CellStr
  | .nan => .empty
  | .inf => .infStr
  | .num q => .numStr (fmt4 q)

/-- The inputs of one sampling cycle: the wall clock `now` (rational
seconds since the epoch), the instrument's behaviour on this cycle, and
the active channel list captured at start. -/
structure CycleIn where
  now : ℚ
  meas : Nat → MeasOutcome
  chans : List Nat

/-- The value pushed for channel `ch` (1-based):
`safe_R(psu, ch) if ch in chans else np.nan`. -/
def reading (cin : CycleIn) (ch : Nat) : Val :=
  if ch ∈ cin.chans then safe_R (cin.meas ch) else .nan

/-- The four values pushed in one cycle, in channel order. -/
def cycleReadings (cin : CycleIn) : List Val :=
  (List.range CHAN_COUNT).map (fun idx => reading cin (idx + 1))

/-- The channels on which `safe_R` (hence `psu.query`) is invoked in one
cycle: exactly the active ones, in channel order. -/
def queriedChans (cin : CycleIn) : List Nat :=
  ((List.range CHAN_COUNT).map (· + 1)).filter (fun ch => decide (ch ∈ cin.chans))

/-- The CSV row the worker appends in one cycle: the timestamp formatted
to whole seconds (`strftime("%Y-%m-%d %H:%M:%S")`), the relative hours
formatted `"{rel:.4f}"`, then the four serialised readings. -/
def cycleRow (t0 : ℚ) (cin : CycleIn) (rs : List Val) : Line :=
  .row ([CellStr.timeStr ⌊cin.now⌋, CellStr.numStr (fmt4 ((cin.now - t0) / 3600))]
        ++ rs.map valCell)

/-- The worker-visible state: the two cache deques and the log file.
(The periodic `csv_to_xlsx` call writes only the artifact, never the
log or the cache, so it does not appear in the state.) -/
structure WState where
  t : List ℚ
  r : List (List Val)
  log : List Line
deriving DecidableEq

/-- One iteration of the worker's sampling loop: push the timestamp,
push one value per channel, append the flushed CSV row. -/
def cycle (t0 : ℚ) (st : WState) (cin : CycleIn) : WState :=
  let rs := cycleReadings cin
  ⟨dpush MAX_POINTS st.t (date2num cin.now),
   pushVals st.r rs,
   st.log ++ [cycleRow t0 cin rs]⟩

/-- The worker loop over a finite schedule of cycles. -/
def runCycles (t0 : ℚ) (st : WState) (ins : List CycleIn) : WState :=
  ins.foldl (cycle t0) st

/-- The state at worker start: empty deques over the freshly ensured log. -/
def initWState : WState := ⟨[], [[], [], [], []], initLog⟩

/-- Observable events of a worker run: installing the export pointer,
and appending one row to the log. -/
inductive Event
  | setPtr (p : Nat)
  | append (l : Line)
deriving DecidableEq

/-- The append events the cycle loop emits, in order. -/
def appendEvents (t0 : ℚ) : WState → List CycleIn → List Event
  | _, [] => []
  | st, cin :: rest =>
      .append (cycleRow t0 cin (cycleReadings cin))
        :: appendEvents t0 (cycle t0 st cin) rest

/-- `worker(chans, ilim)` up to its loop: resolve `current_xlsx()`,
minting a fresh artifact name and persisting it via `set_xlsx` when the
pointer is absent, then run the sampling cycles.  Returns the final
state and the ordered event trace; `none` models a raised exception. -/
def worker (fresh : Nat) (t0 : ℚ) (ins : List CycleIn) (st : WState) :
    Option (WState × List Event) := do
  let (log1, evs1) ←
    match current_xlsx st.log with
    | some _ => some (st.log, ([] : List Event))
    | none => (set_xlsx st.log fresh).map (fun l => (l, [Event.setPtr fresh]))
  let st1 : WState := ⟨st.t, st.r, log1⟩
  return (runCycles t0 st1 ins, evs1 ++ appendEvents t0 st1 ins)

/-- `i0 = next((i for i,tt in enumerate(self.t) if tt >= cut), len(self.t)-1)`
in `redraw`. -/
def windowStart (t : List ℚ) (cut : ℚ) : Nat :=
  match t.findIdx? (fun tt => decide (cut ≤ tt)) with
  | some i => i
  | none => t.length - 1

/-- `x = np.array(list(self.t)[i0:])`: the timestamps of the displayed
window. -/
def windowT (t : List ℚ) (cut : ℚ) : List ℚ := t.drop (windowStart t cut)

/-- `list(self.r[idx])[i0:]`: one channel's displayed window. -/
def windowR (t : List ℚ) (cut : ℚ) (q : List Val) : List Val :=
  q.drop (windowStart t cut)

/-- A written spreadsheet cell of the Data sheet: left empty, written as
a string, or written as a (finite) number. -/
inductive Cell
  | blank
  | str (s : CellStr)
  | numC (q : ℚ)
deriving DecidableEq

/-- The cell `csv_to_xlsx` writes at row `r`, column `c` for field `val`:
header cells verbatim; empty fields skipped; column 0 verbatim; other
columns parsed with `float` (raising on bad text, `none`) and written
only when finite. -/
def xlsxCell (r c : Nat) (val : CellStr) : Option Cell :=
  if r = 0 then some (.str val)
  else if val = .empty then some .blank
  else if c = 0 then some (.str val)
  else match parseFloat val with
       | none => none
       | some (.fin q) => some (.numC q)
       | some _ => some .blank

/-- One Data-sheet row, columns numbered from `c`. -/
def xlsxRowAux (r c : Nat) : List CellStr → Option (List Cell)
  | [] => some []
  | v :: vs => do
      let cell ← xlsxCell r c v
      let rest ← xlsxRowAux r (c + 1) vs
      return cell :: rest

/-- The Data-sheet rows, numbered from `r`. -/
def xlsxRowsAux (r : Nat) : List (List CellStr) → Option (List (List Cell))
  | [] => some []
  | row :: rest => do
      let cells ← xlsxRowAux r 0 row
      let more ← xlsxRowsAux (r + 1) rest
      return cells :: more

/-- One chart series: channel label index, Data-sheet column, and the
last referenced row (`max_row`). -/
structure Series where
  name : Nat
  col : Nat
  maxRow : Nat
deriving DecidableEq

/-- The exported artifact: the Data sheet and the Chart sheet's series. -/
structure Artifact where
  data : List (List Cell)
  chart : List Series
deriving DecidableEq

/-- `csv_to_xlsx(csv_path, xlsx_path)`: read all non-`#` rows, write the
Data sheet cell by cell, then add one line series per channel over
columns 2..5 bounded by `max_row = len(rows) - 1`. -/
def csv_to_xlsx (ls : List Line) : Option Artifact := do
  let rows := csvRows ls
  let sheet ← xlsxRowsAux 0 rows
  return ⟨sheet, (List.range CHAN_COUNT).map (fun k => ⟨k, k + 2, rows.length - 1⟩)⟩

/-- The loss the CSV round-trip inflicts on a cached timestamp:
`datestr2num(now.strftime("%Y-%m-%d %H:%M:%S"))` as a function of
`date2num(now)` — truncation to whole seconds. -/
def serTime (x : ℚ) : ℚ := (⌊x * 86400⌋ : ℚ) / 86400

/-- The loss the CSV round-trip inflicts on a cached value:
finite readings are rounded by `f"{v:.4f}"`; `nan` and `inf` survive. -/
def serVal : Val → Val
  | .num q => .num (fmt4 q)
  | v => v

/-- `load_cache` on a state's log reproduces the in-memory deques up to
the per-field serialization loss. -/
def tracksLog (st : WState) : Prop :=
  load_cache st.log = some ⟨st.t.map serTime, st.r.map (List.map serVal)⟩

/-- The cells of a CSV line (metadata lines have none). -/
def rowCells : Line → List CellStr
  | .meta _ => []
  | .row cs => cs

/-- A state with a run in progress: `mode == "log"`, one sample cached
and logged. -/
def busyState : AppState :=
  ⟨.logging, [100], [[.num 10], [.nan], [.nan], [.nan]],
   initLog ++ [.row [.timeStr 0, .numStr 0, .numStr 10, .empty, .empty, .empty]]⟩

/-- A well-formed log ending in one data row. -/
def goodLog : List Line :=
  initLog ++ [.row [.timeStr 0, .numStr 0, .numStr 10, .empty, .empty, .empty]]

theorem csvRows_append_row (ls : List Line) (cs : List CellStr) :
    csvRows (ls ++ [.row cs]) = csvRows ls ++ [cs] := by
  simp [csvRows]

theorem load_cache_append_row (ls : List Line) (cs : List CellStr)
    (h : csvRows ls ≠ []) :
    load_cache (ls ++ [.row cs]) = (load_cache ls).bind (fun c => loadRow c cs) := by
  unfold load_cache
  rw [csvRows_append_row]
  cases hr : csvRows ls with
  | nil => exact absurd hr h
  | cons r rest =>
    simp [List.foldlM_append]

theorem parseField_valCell (v : Val) : parseField (valCell v) = some (serVal v) := by
  cases v <;> simp [parseField, valCell, parseFloat, floatToVal, serVal]

theorem mapM_loop_parseField_valCell (rs : List Val) (acc : List Val) :
    List.mapM.loop parseField (rs.map valCell) acc = some (acc.reverse ++ rs.map serVal) := by
  induction rs generalizing acc with
  | nil => simp [List.mapM.loop]
  | cons v vs ih => simp [List.mapM.loop, parseField_valCell, ih]

theorem mapM_parseField_valCell (rs : List Val) :
    (rs.map valCell).mapM parseField = some (rs.map serVal) := by
  simpa [List.mapM] using mapM_loop_parseField_valCell rs []

theorem map_dpush (f : α → β) (m : Nat) (l : List α) (x : α) :
    (dpush m l x).map f = dpush m (l.map f) (f x) := by
  unfold dpush
  rw [List.length_map]
  split
  · simp
  · cases l <;> simp

theorem map_pushVals (f : Val → Val) (r : List (List Val)) (vals : List Val) :
    (pushVals r vals).map (List.map f) =
      pushVals (r.map (List.map f)) (vals.map f) := by
  induction r generalizing vals with
  | nil => cases vals <;> simp [pushVals]
  | cons q r' ih =>
    cases vals with
    | nil => simp [pushVals]
    | cons v vs => simp [pushVals, ih, map_dpush]

theorem loadRow_cycleRow (t0 : ℚ) (cin : CycleIn) (rs : List Val)
    (hlen : rs.length ≤ CHAN_COUNT) (c : Cache) :
    loadRow c ([CellStr.timeStr ⌊cin.now⌋,
                CellStr.numStr (fmt4 ((cin.now - t0) / 3600))] ++ rs.map valCell) =
      some ⟨dpush MAX_POINTS c.t (serTime (date2num cin.now)),
            pushVals c.r (rs.map serVal)⟩ := by
  have htake : (rs.map valCell).take CHAN_COUNT = rs.map valCell := by
    apply List.take_of_length_le
    simpa using hlen
  have hser : serTime (date2num cin.now) = (⌊cin.now⌋ : ℚ) / 86400 := by
    unfold serTime date2num
    rw [div_mul_cancel₀]
    norm_num
  simp [loadRow, datestr2num, htake, mapM_parseField_valCell,
        mapM_loop_parseField_valCell, hser]

theorem tracksLog_init : tracksLog initWState := by
  simp [tracksLog, initWState, load_cache, initLog, csvRows, headerRow, initCache]

theorem csvRows_init_ne : csvRows initWState.log ≠ [] := by
  simp [initWState, initLog, csvRows, headerRow]

theorem tracksLog_cycle (t0 : ℚ) (st : WState) (cin : CycleIn)
    (h : tracksLog st) (hne : csvRows st.log ≠ []) :
    tracksLog (cycle t0 st cin) := by
  have hlen : (cycleReadings cin).length ≤ CHAN_COUNT := by
    simp [cycleReadings]
  have step := loadRow_cycleRow t0 cin (cycleReadings cin) hlen
      ⟨st.t.map serTime, st.r.map (List.map serVal)⟩
  unfold tracksLog at h ⊢
  show load_cache
      (st.log ++ [Line.row ([CellStr.timeStr ⌊cin.now⌋,
          CellStr.numStr (fmt4 ((cin.now - t0) / 3600))]
          ++ (cycleReadings cin).map valCell)]) = _
  rw [load_cache_append_row _ _ hne, h, Option.some_bind, step]
  simp [cycle, map_dpush, map_pushVals]

theorem tracksLog_runCycles (t0 : ℚ) (ins : List CycleIn) (st : WState)
    (h : tracksLog st) (hne : csvRows st.log ≠ []) :
    tracksLog (runCycles t0 st ins) := by
  induction ins generalizing st with
  | nil => simpa [runCycles] using h
  | cons cin rest ih =>
    have h1 := tracksLog_cycle t0 st cin h hne
    have hne1 : csvRows (cycle t0 st cin).log ≠ [] := by
      simp [cycle, csvRows, cycleRow]
    exact ih (cycle t0 st cin) h1 hne1

/-- Claim C3 (amended): for every sequence of sampling cycles, replaying
the append log with `_load_cache` reproduces the incrementally built
rolling cache up to the per-field serialization loss: each timestamp is
truncated to whole seconds and each finite value rounded to four decimal
places, while `nan` and `inf` survive unchanged. -/
theorem replay_eq_incremental_mod_ser (t0 : ℚ) (ins : List CycleIn) :
    load_cache (runCycles t0 initWState ins).log =
      some ⟨(runCycles t0 initWState ins).t.map serTime,
            (runCycles t0 initWState ins).r.map (List.map serVal)⟩ :=
  tracksLog_runCycles t0 ins initWState tracksLog_init csvRows_init_ne

/-- Claim C3, counterexample to the claim as stated: one cycle sampled at
`now = 0.5` seconds makes the reconstructed time deque (`0` after
second-truncation) differ from the incremental one (`0.5/86400`), so the
replayed cache does not equal the in-run cache exactly. -/
theorem replay_counterexample :
    load_cache (runCycles 0 initWState [⟨1/2, fun _ => .ok 1 1, [1]⟩]).log ≠
      some ⟨(runCycles 0 initWState [⟨1/2, fun _ => .ok 1 1, [1]⟩]).t,
            (runCycles 0 initWState [⟨1/2, fun _ => .ok 1 1, [1]⟩]).r⟩ := by
  simp [load_cache, runCycles, cycle, initWState, dpush, date2num, MAX_POINTS,
        cycleReadings, reading, CHAN_COUNT, safe_R, cycleRow, valCell, fmt4,
        initLog, csvRows, headerRow, loadRow, datestr2num, parseField, parseFloat,
        floatToVal, pushVals, initCache, List.mapM, List.mapM.loop, List.range_succ]
  norm_num
  simp [floatToVal, pushVals, dpush]

theorem mem_windowT_of_mem (t : List ℚ) (cut x : ℚ) (hx : x ∈ t) (hcut : cut ≤ x) :
    x ∈ windowT t cut := by
  induction t with
  | nil => cases hx
  | cons a t' ih =>
    by_cases ha : cut ≤ a
    · have h0 : windowStart (a :: t') cut = 0 := by
        simp [windowStart, List.findIdx?_cons, ha]
      simpa [windowT, h0] using hx
    · have hx' : x ∈ t' := by
        rcases List.mem_cons.mp hx with rfl | h
        · exact absurd hcut ha
        · exact h
      cases hfi : t'.findIdx? (fun tt => decide (cut ≤ tt)) with
      | some i =>
        have h1 : windowStart (a :: t') cut = i + 1 := by
          simp [windowStart, List.findIdx?_cons, ha, List.findIdx?_succ, hfi]
        have h2 : windowStart t' cut = i := by simp [windowStart, hfi]
        have hmem := ih hx'
        rw [windowT, h2] at hmem
        rw [windowT, h1, List.drop_succ_cons]
        exact hmem
      | none =>
        exfalso
        have := List.findIdx?_eq_none_iff.mp hfi x hx'
        simp [hcut] at this

theorem windowT_eq_filter (t : List ℚ) (cut : ℚ)
    (hs : t.Sorted (· ≤ ·)) (hex : ∃ x ∈ t, cut ≤ x) :
    windowT t cut = t.filter (fun x => decide (cut ≤ x)) := by
  induction t with
  | nil => simp at hex
  | cons a t' ih =>
    by_cases ha : cut ≤ a
    · have h0 : windowStart (a :: t') cut = 0 := by
        simp [windowStart, List.findIdx?_cons, ha]
      have hall : ∀ x ∈ t', cut ≤ x := fun x hx =>
        le_trans ha ((List.sorted_cons.mp hs).1 x hx)
      rw [windowT, h0, List.drop_zero, List.filter_cons_of_pos (by simp [ha])]
      exact (congrArg (a :: ·)
        (List.filter_eq_self.mpr (fun x hx => by simp [hall x hx])).symm)
    · have hex' : ∃ x ∈ t', cut ≤ x := by
        rcases hex with ⟨x, hx, hcx⟩
        rcases List.mem_cons.mp hx with rfl | h
        · exact absurd hcx ha
        · exact ⟨x, h, hcx⟩
      obtain ⟨x, hx, hcx⟩ := hex'
      have hfi : t'.findIdx? (fun tt => decide (cut ≤ tt)) =
          some (t'.findIdx (fun tt => decide (cut ≤ tt))) :=
        List.findIdx?_eq_some_of_exists ⟨x, hx, by simp [hcx]⟩
      have h1 : windowStart (a :: t') cut = t'.findIdx (fun tt => decide (cut ≤ tt)) + 1 := by
        simp [windowStart, List.findIdx?_cons, ha, List.findIdx?_succ, hfi]
      have h2 : windowStart t' cut = t'.findIdx (fun tt => decide (cut ≤ tt)) := by
        simp [windowStart, hfi]
      rw [windowT, h1, List.drop_succ_cons, List.filter_cons_of_neg (by simp [ha])]
      rw [← h2]
      exact ih (List.sorted_cons.mp hs).2 ⟨x, hx, hcx⟩

/-- Claim C2, counterexample to the claim as stated: with a cache holding
a single sample at time `0` and cutoff `1`, the `len(self.t)-1` fallback
of `redraw` puts that stale sample in the window, although it is older
than the cutoff; and with an unsorted cache `[5, 0]` the suffix from the
first in-window index also retains the stale sample `0`. -/
theorem window_counterexample :
    ((0 : ℚ) ∈ windowT [0] 1 ∧ ¬ ((1 : ℚ) ≤ 0)) ∧
      ((0 : ℚ) ∈ windowT [5, 0] 1 ∧ ¬ ((1 : ℚ) ≤ 0)) := by
  decide

/-- Claim C1, code-bug evidence: `clear_cache` performs no `mode` check,
so invoked (and confirmed) in a state whose mode is not idle it does not
fail with Busy: it resets the append log to the freshly ensured file and
empties every cache deque. -/
theorem clear_cache_clears_while_running :
    busyState.mode ≠ Mode.idle ∧
    clear_cache true busyState ≠ busyState ∧
    (clear_cache true busyState).t = [] ∧
    (clear_cache true busyState).r = [[], [], [], []] ∧
    (clear_cache true busyState).log = initLog := by
  decide

/-- Claim C4, code-bug evidence: a malformed trailing line is fatal, not
skipped — `_load_cache` raises (models as `none`) on a log whose last
line parses as neither timestamp nor number, while the same log without
that line loads fine; `csv_to_xlsx` likewise raises on a malformed
numeric field in a trailing row. -/
theorem malformed_trailing_fatal :
    load_cache (goodLog ++ [.row [.rawStr 9]]) = none ∧
    load_cache goodLog = some ⟨[0], [[.num 10], [.nan], [.nan], [.nan]]⟩ ∧
    csv_to_xlsx (goodLog ++ [.row [.timeStr 0, .rawStr 9]]) = none := by
  refine ⟨?_, ?_, ?_⟩
  · simp [load_cache, goodLog, initLog, csvRows, headerRow, loadRow, datestr2num,
          parseField, parseFloat, floatToVal, pushVals, initCache, dpush, MAX_POINTS,
          List.mapM, List.mapM.loop]
  · simp [load_cache, goodLog, initLog, csvRows, headerRow, loadRow, datestr2num,
          parseField, parseFloat, floatToVal, pushVals, initCache, dpush, MAX_POINTS,
          List.mapM, List.mapM.loop]
  · simp [csv_to_xlsx, goodLog, initLog, csvRows, headerRow, xlsxRowsAux, xlsxRowAux,
          xlsxCell, parseFloat, isfinite]

theorem appendEvents_only_appends (t0 : ℚ) (st : WState) (ins : List CycleIn) :
    ∀ e ∈ appendEvents t0 st ins, ∃ l, e = Event.append l := by
  induction ins generalizing st with
  | nil => simp [appendEvents]
  | cons cin rest ih =>
    intro e he
    rw [appendEvents] at he
    rcases List.mem_cons.mp he with rfl | h
    · exact ⟨_, rfl⟩
    · exact ih _ e h

/-- Claim C5: when the export pointer is absent at run start, the worker
persists the freshly minted pointer via `set_xlsx` strictly before any
row is appended: its event trace is the pointer installation followed
only by append events. -/
theorem pointer_set_before_first_append (fresh : Nat) (t0 : ℚ) (ins : List CycleIn)
    (tq : List ℚ) (r : List (List Val)) (l0 : Line) (tl : List Line)
    (habs : current_xlsx (l0 :: tl) = none) :
    ∃ evs, worker fresh t0 ins ⟨tq, r, l0 :: tl⟩ =
        some (runCycles t0 ⟨tq, r, .meta (some fresh) :: tl⟩ ins,
              Event.setPtr fresh :: evs) ∧
      ∀ e ∈ evs, ∃ l, e = Event.append l :=
  ⟨appendEvents t0 ⟨tq, r, .meta (some fresh) :: tl⟩ ins,
   by simp [worker, habs, set_xlsx],
   appendEvents_only_appends t0 ⟨tq, r, .meta (some fresh) :: tl⟩ ins⟩

/-- Claim C6: on any log with at least one line, `set_xlsx` succeeds,
replaces exactly the first line with the new metadata line, leaves every
subsequent line unchanged, and — being installed by write-temp-then-
atomic-replace — every observable intermediate content of the log is
either the old contents or the new, never a mixture. -/
theorem set_xlsx_replaces_only_head (ls : List Line) (p : Nat) (h : ls ≠ []) :
    ∃ res, set_xlsx ls p = some res ∧
      res.head? = some (.meta (some p)) ∧
      res.tail = ls.tail ∧
      ∀ s ∈ set_xlsx_rawStates ls p, s = ls ∨ s = res := by
  cases ls with
  | nil => exact absurd rfl h
  | cons l0 tl =>
    refine ⟨.meta (some p) :: tl, rfl, rfl, rfl, ?_⟩
    intro s hs
    simp [set_xlsx_rawStates, set_xlsx] at hs
    rcases hs with rfl | rfl
    · exact Or.inl rfl
    · exact Or.inr rfl

/-- Claim C7: in every sampling cycle, a channel outside the active set is
never queried and is recorded as `nan` in the cache and as the empty
field in the appended row; a failed measurement on an active channel
yields `nan`/empty for that channel only, every active channel's value
is its own `safe_R` result, and the row is appended regardless. -/
theorem cycle_channel_isolation (t0 : ℚ) (st : WState) (cin : CycleIn) :
    (∀ ch, ch ∉ cin.chans → ch ∉ queriedChans cin) ∧
    (∀ idx : Nat, idx < CHAN_COUNT → idx + 1 ∉ cin.chans →
      (cycleReadings cin)[idx]? = some Val.nan ∧
      (rowCells (cycleRow t0 cin (cycleReadings cin)))[idx + 2]? = some CellStr.empty) ∧
    (∀ idx : Nat, idx < CHAN_COUNT → idx + 1 ∈ cin.chans → cin.meas (idx + 1) = .fail →
      (cycleReadings cin)[idx]? = some Val.nan ∧
      (rowCells (cycleRow t0 cin (cycleReadings cin)))[idx + 2]? = some CellStr.empty) ∧
    (∀ idx : Nat, idx < CHAN_COUNT → idx + 1 ∈ cin.chans →
      (cycleReadings cin)[idx]? = some (safe_R (cin.meas (idx + 1)))) ∧
    (cycle t0 st cin).log = st.log ++ [cycleRow t0 cin (cycleReadings cin)] := by
  refine ⟨?_, ?_, ?_, ?_, rfl⟩
  · intro ch hch hmem
    simp [queriedChans, List.mem_filter] at hmem
    exact hch hmem.2
  · intro idx hidx h
    have h4 : idx < 4 := hidx
    interval_cases idx <;>
      simp [cycleReadings, CHAN_COUNT, List.range_succ, reading, h, rowCells,
            cycleRow, valCell]
  · intro idx hidx h hfail
    have h4 : idx < 4 := hidx
    interval_cases idx <;>
      simp [cycleReadings, CHAN_COUNT, List.range_succ, reading, h, hfail, safe_R,
            rowCells, cycleRow, valCell]
  · intro idx hidx h
    have h4 : idx < 4 := hidx
    interval_cases idx <;>
      simp [cycleReadings, CHAN_COUNT, List.range_succ, reading, h]

/-- Claim C8: `csv_to_xlsx` is a function of the log contents — two runs
on the same contents produce equal artifacts, in particular identical
Data sheets — and any numeric data cell whose text parses to a
non-finite value is written as an empty cell, not an error. -/
theorem export_deterministic_nonfinite_blank (ls : List Line) (a b : Artifact)
    (ha : csv_to_xlsx ls = some a) (hb : csv_to_xlsx ls = some b) :
    a = b ∧ a.data = b.data ∧
    (∀ r c : Nat, ∀ val f, 0 < r → 0 < c → parseFloat val = some f →
      isfinite f = false → xlsxCell r c val = some Cell.blank) := by
  have hab : a = b := by
    have := ha.symm.trans hb
    exact Option.some.inj this
  refine ⟨hab, by rw [hab], ?_⟩
  intro r c val f hr hc hpf hfin
  have hr0 : r ≠ 0 := Nat.pos_iff_ne_zero.mp hr
  have hc0 : c ≠ 0 := Nat.pos_iff_ne_zero.mp hc
  cases val with
  | empty => simp [parseFloat] at hpf
  | timeStr s => simp [parseFloat] at hpf
  | rawStr t => simp [parseFloat] at hpf
  | numStr q =>
    simp [parseFloat] at hpf
    rw [← hpf] at hfin
    simp [isfinite] at hfin
  | infStr =>
    simp [xlsxCell, hr0, hc0, parseFloat]
  | nanStr =>
    simp [xlsxCell, hr0, hc0, parseFloat]

/-- Claim C9: `safe_R` is total over query outcomes — it returns `inf`
exactly when the parsed current magnitude is below `1e-6`, `nan` exactly
when the query or the parse of its reply fails, and `v/i` otherwise, so
open circuit and measurement failure are distinct return values. -/
theorem safe_R_classification :
    safe_R .fail = .nan ∧
    (∀ v i : ℚ, (safe_R (.ok v i) = .inf ↔ |i| < 1/1000000)) ∧
    (∀ v i : ℚ, ¬ |i| < 1/1000000 → safe_R (.ok v i) = .num (v / i)) ∧
    (∀ m, safe_R m = .nan ↔ m = .fail) := by
  have hs : ∀ v i : ℚ,
      safe_R (.ok v i) = if |i| < 1/1000000 then Val.inf else Val.num (v / i) :=
    fun _ _ => rfl
  refine ⟨rfl, ?_, ?_, ?_⟩
  · intro v i
    by_cases h : |i| < 1/1000000
    · rw [hs, if_pos h]
      exact iff_of_true rfl h
    · rw [hs, if_neg h]
      exact iff_of_false (by simp) h
  · intro v i h
    rw [hs, if_neg h]
  · intro m
    cases m with
    | fail => simp [safe_R]
    | ok v i =>
      by_cases h : |i| < 1/1000000
      · rw [hs, if_pos h]
        simp
      · rw [hs, if_neg h]
        simp

theorem dpush_length (m : Nat) (l : List α) (x : α) :
    (dpush m l x).length = if l.length < m then l.length + 1 else l.length := by
  unfold dpush
  split
  · simp
  · simp

theorem pushVals_mem_length (n : Nat) :
    ∀ (r : List (List Val)) (vals : List Val), vals.length = r.length →
      (∀ q ∈ r, q.length = n) →
      ∀ q ∈ pushVals r vals, q.length = if n < MAX_POINTS then n + 1 else n := by
  intro r
  induction r with
  | nil =>
    intro vals _ _ q hq
    cases vals <;> simp [pushVals] at hq
  | cons q0 r' ih =>
    intro vals hlen hall q hq
    cases vals with
    | nil => simp at hlen
    | cons v vs =>
      simp [pushVals] at hq
      rcases hq with rfl | hq
      · rw [dpush_length, hall q0 (by simp)]
      · exact ih vs (by simpa using hlen) (fun q hqm => hall q (by simp [hqm])) q hq

/-- Claim C10: a sampling cycle run on aligned deques (four channel
deques, all of the time deque's length, within `MAX_POINTS`) appends
exactly one element to each, so all five deques stay aligned: lengths
grow by one below capacity and stay at `MAX_POINTS` at capacity. -/
theorem cycle_alignment (t0 : ℚ) (st : WState) (cin : CycleIn)
    (hlen : st.r.length = CHAN_COUNT)
    (ha : ∀ q ∈ st.r, q.length = st.t.length)
    (hb : st.t.length ≤ MAX_POINTS) :
    (cycle t0 st cin).r.length = CHAN_COUNT ∧
    (∀ q ∈ (cycle t0 st cin).r, q.length = (cycle t0 st cin).t.length) ∧
    (cycle t0 st cin).t.length ≤ MAX_POINTS ∧
    (cycle t0 st cin).t.length =
      (if st.t.length < MAX_POINTS then st.t.length + 1 else st.t.length) := by
  have hrl : ∀ (r : List (List Val)) (vals : List Val), (pushVals r vals).length = r.length := by
    intro r
    induction r with
    | nil => intro vals; cases vals <;> simp [pushVals]
    | cons q0 r' ih => intro vals; cases vals <;> simp [pushVals, ih]
  have hcr : (cycleReadings cin).length = CHAN_COUNT := by simp [cycleReadings]
  have htl : (cycle t0 st cin).t.length =
      (if st.t.length < MAX_POINTS then st.t.length + 1 else st.t.length) := by
    simp [cycle, dpush_length]
  refine ⟨by simp [cycle, hrl, hlen], ?_, ?_, htl⟩
  · intro q hq
    have := pushVals_mem_length st.t.length st.r (cycleReadings cin)
      (by rw [hcr, hlen]) ha q (by simpa [cycle] using hq)
    rw [this, htl]
  · rw [htl]
    split
    · omega
    · exact hb

/-- Claim C2 (amended): the displayed window always contains every cached
sample at or after the cutoff; and whenever the cache is time-ordered
and at least one sample is at or after the cutoff, the window is exactly
the set of samples at or after the cutoff. -/
theorem window_amended (t : List ℚ) (cut : ℚ) :
    (∀ x ∈ t, cut ≤ x → x ∈ windowT t cut) ∧
    (t.Sorted (· ≤ ·) → (∃ x ∈ t, cut ≤ x) →
      windowT t cut = t.filter (fun x => decide (cut ≤ x))) :=
  ⟨fun x hx hc => mem_windowT_of_mem t cut x hx hc,
   fun hs hex => windowT_eq_filter t cut hs hex⟩

/-- Claim C2, witness: on the sorted cache `[0, 2]` with cutoff `1`, the
window is exactly `[2]`. -/
theorem window_amended_witness :
    (2 : ℚ) ∈ windowT [0, 2] 1 ∧ windowT [0, 2] 1 = [2] := by
  constructor
  · exact (window_amended [0, 2] 1).1 2 (by simp) (by norm_num)
  · have h := (window_amended [0, 2] 1).2 (by simp [List.sorted_cons])
      ⟨2, by simp, by norm_num⟩
    simpa using h

/-- Claim C5, witness: on the freshly ensured log (pointer absent) the
worker's trace starts with `setPtr`. -/
theorem pointer_set_before_first_append_witness :
    ∃ evs, worker 7 0 [] ⟨[], [[], [], [], []], Line.meta none :: [headerRow]⟩ =
        some (runCycles 0 ⟨[], [[], [], [], []], .meta (some 7) :: [headerRow]⟩ [],
              Event.setPtr 7 :: evs) ∧
      ∀ e ∈ evs, ∃ l, e = Event.append l :=
  pointer_set_before_first_append 7 0 [] [] [[], [], [], []] (.meta none) [headerRow] rfl

/-- Claim C6, witness: on the two-line initial log, `set_xlsx` yields the
new pointer line over the untouched header. -/
theorem set_xlsx_replaces_only_head_witness :
    ∃ res, set_xlsx [Line.meta none, headerRow] 7 = some res ∧
      res.head? = some (.meta (some 7)) ∧
      res.tail = [Line.meta none, headerRow].tail ∧
      ∀ s ∈ set_xlsx_rawStates [Line.meta none, headerRow] 7, s = [Line.meta none, headerRow] ∨ s = res :=
  set_xlsx_replaces_only_head [Line.meta none, headerRow] 7 (by simp)

/-- Claim C7, witness: with only channel 1 active and the instrument
failing, channel 2 is not queried, channels 1 and 2 read `nan`, and the
cycle still appends its row. -/
theorem cycle_channel_isolation_witness :
    (2 ∉ queriedChans ⟨0, fun _ => .fail, [1]⟩) ∧
    (cycleReadings ⟨0, fun _ => .fail, [1]⟩)[1]? = some Val.nan ∧
    (cycleReadings ⟨0, fun _ => .fail, [1]⟩)[0]? = some Val.nan ∧
    (cycle 0 initWState ⟨0, fun _ => .fail, [1]⟩).log =
      initWState.log ++
        [cycleRow 0 ⟨0, fun _ => .fail, [1]⟩ (cycleReadings ⟨0, fun _ => .fail, [1]⟩)] := by
  have h := cycle_channel_isolation 0 initWState ⟨0, fun _ => .fail, [1]⟩
  exact ⟨h.1 2 (by decide),
         (h.2.1 1 (by decide) (by decide)).1,
         (h.2.2.1 0 (by decide) (by decide) rfl).1,
         h.2.2.2.2⟩

/-- Claim C8, witness: exporting the initial log twice gives the same
concrete artifact, and an `inf` field in a data cell is written blank. -/
theorem export_deterministic_nonfinite_blank_witness :
    xlsxCell 1 2 CellStr.infStr = some Cell.blank := by
  have hsome : csv_to_xlsx initLog =
      some ⟨[[.str (.rawStr 0), .str (.rawStr 1), .str (.rawStr 2),
              .str (.rawStr 3), .str (.rawStr 4), .str (.rawStr 5)]],
            [⟨0, 2, 0⟩, ⟨1, 3, 0⟩, ⟨2, 4, 0⟩, ⟨3, 5, 0⟩]⟩ := by
    decide
  exact (export_deterministic_nonfinite_blank initLog _ _ hsome hsome).2.2
    1 2 .infStr .pinf (by decide) (by decide) rfl rfl

/-- Claim C9, witness: a normal measurement yields `v/i` and a
sub-microamp current yields `inf`. -/
theorem safe_R_classification_witness :
    safe_R (.ok 5 2) = .num (5 / 2) ∧ safe_R (.ok 5 (1/2000000)) = .inf := by
  constructor
  · exact safe_R_classification.2.2.1 5 2 (by norm_num)
  · exact (safe_R_classification.2.1 5 (1/2000000)).mpr (by rw [abs_of_pos] <;> norm_num)

/-- Claim C10, witness: one cycle from the empty aligned state leaves
four channel deques and a time deque of length one. -/
theorem cycle_alignment_witness :
    (cycle 0 initWState ⟨0, fun _ => .fail, []⟩).r.length = CHAN_COUNT ∧
    (cycle 0 initWState ⟨0, fun _ => .fail, []⟩).t.length = 1 := by
  have h := cycle_alignment 0 initWState ⟨0, fun _ => .fail, []⟩
    (by decide) (by decide) (by decide)
  refine ⟨h.1, ?_⟩
  rw [h.2.2.2]
  decide

end CWT
